import Mathlib

/-!
Verification development for `events_monthly.py`, an aggregator of Japanese
event listings.  The embedding covers the pure core of the program:

* `parse_date_range` — the date-range normalizer (lines 87-133 of the source),
  together with a model of the `dateutil.parser.parse` library call it makes;
* the per-row acceptance guards of the three extractors
  (`fetch_kagaku`, `_parse_article`, `fetch_makuhari`);
* `collect_all` — concatenation, column handling, `last_seen_at` stamping and
  `drop_duplicates` over the per-source fetch results (lines 478-508).

Network fetching and HTML/DOM traversal are external I/O; the embedding takes
their textual outputs as parameters, exactly at the interfaces where the
source hands extracted strings to the pure code.
-/

namespace EventsMonthly

/-! ## Character classes used by the regex substitutions -/

/-- The kanji weekday characters of the character class in
`re.sub(r'(月|火|水|木|金|土|日)曜?', '', t)` (source line 102). -/
def isWeekdayKanji (c : Char) : Bool :=
  c = '月' || c = '火' || c = '水' || c = '木' || c = '金' || c = '土' || c = '日'

/-- Python `re` whitespace (`\s`) for `str` patterns: ASCII whitespace plus
the Unicode space characters, as matched by `re.sub(r'\s+', '', t)` (line
103); written by code point: space, TAB LF VT FF CR, the file/group/record/
unit separators, NEL, NBSP, OGHAM SPACE MARK, the U+2000-200A spaces, LINE
and PARAGRAPH SEPARATOR, NARROW NBSP, MEDIUM MATHEMATICAL SPACE and
IDEOGRAPHIC SPACE. -/
def isPySpace (c : Char) : Bool :=
  c.toNat = 32 || c.toNat = 9 || c.toNat = 10 || c.toNat = 11 ||
  c.toNat = 12 || c.toNat = 13 || c.toNat = 28 || c.toNat = 29 ||
  c.toNat = 30 || c.toNat = 31 || c.toNat = 133 || c.toNat = 160 ||
  c.toNat = 5760 || (8192 ≤ c.toNat && c.toNat ≤ 8202) ||
  c.toNat = 8232 || c.toNat = 8233 || c.toNat = 8239 || c.toNat = 8287 ||
  c.toNat = 12288

/-- The dash/tilde glyphs unified by the loop at source line 106, in source
order: `['〜', '～', '-', '−', '—', '–', '－', '―']`. -/
def sepGlyphs : List Char := ['〜', '～', '-', '−', '—', '–', '－', '―']

/-! ## The regex-substitution steps of `parse_date_range` -/

/-- Scan for the closing character of a parenthetical group: the first
occurrence of `closeC`, failing at end of input or at a newline (Python `.`
does not match `\n`, so `（.*?）` cannot span a newline).  Returns the
characters after the closing character. -/
def findClose (closeC : Char) : List Char → Option (List Char)
  | [] => none
  | c :: rest =>
    if c = closeC then some rest
    else if c = '\n' then none
    else findClose closeC rest

/-- One global, non-greedy removal pass for `re.sub(r'（.*?）', '', t)` and
its half-width twin (source lines 98-99): at each opening character, drop
everything through the nearest closing character on the same line; an
unclosed opening character is kept.  Fuel-indexed so that the recursion is
structural (fuel `l.length` always suffices, because each step consumes at
least one character). -/
def stripGroupsFuel (openC closeC : Char) : Nat → List Char → List Char
  | 0, l => l
  | _ + 1, [] => []
  | fuel + 1, c :: rest =>
    if c = openC then
      match findClose closeC rest with
      | some rest2 => stripGroupsFuel openC closeC fuel rest2
      | none => c :: stripGroupsFuel openC closeC fuel rest
    else c :: stripGroupsFuel openC closeC fuel rest

def stripGroups (openC closeC : Char) (l : List Char) : List Char :=
  stripGroupsFuel openC closeC l.length l

/-- `re.sub(r'(月|火|水|木|金|土|日)曜?', '', t)` (source line 102): delete
every kanji weekday character together with an immediately following `曜`. -/
def stripWeekdays : List Char → List Char
  | [] => []
  | [c] => if isWeekdayKanji c then [] else [c]
  | c :: c2 :: rest =>
    if isWeekdayKanji c then
      if c2 = '曜' then stripWeekdays rest
      else stripWeekdays (c2 :: rest)
    else c :: stripWeekdays (c2 :: rest)

/-- Python `str.replace(a, b)` for single characters. -/
def replaceChar (a b : Char) (l : List Char) : List Char :=
  l.map fun c => if c = a then b else c

/-- Python `str.replace(a, '')` for a single character. -/
def deleteChar (a : Char) (l : List Char) : List Char :=
  l.filter fun c => ¬ c = a

/-- The loop at source line 106: `for ch in [...]: t = t.replace(ch, '〜')`. -/
def normalizeSeps (l : List Char) : List Char :=
  sepGlyphs.foldl (fun acc ch => replaceChar ch '〜' acc) l

/-- Per-character effect of the separator-unification loop. -/
def normSepChar (c : Char) : Char :=
  sepGlyphs.foldl (fun x ch => if x = ch then '〜' else x) c

/-- Python `str.split(sep)` for a single-character separator: `''` splits to
`['']`, and consecutive separators produce empty fragments. -/
def splitOnChar (sep : Char) : List Char → List (List Char)
  | [] => [[]]
  | c :: rest =>
    let r := splitOnChar sep rest
    if c = sep then [] :: r
    else
      match r with
      | h :: t => (c :: h) :: t
      | [] => [[c]]

/-- The whole normalization pipeline of `parse_date_range` before the split
(source lines 98-110): strip parenthetical groups (full- and half-width),
strip weekday kanji, delete whitespace, unify the dash/tilde glyphs to `〜`,
then `t.replace('年','/').replace('月','/').replace('日','')`. -/
def pdrNormalize (text : String) : List Char :=
  let t := stripGroups '（' '）' text.data
  let t := stripGroups '(' ')' t
  let t := stripWeekdays t
  let t := t.filter fun c => ¬ isPySpace c
  let t := normalizeSeps t
  let t := replaceChar '年' '/' t
  let t := replaceChar '月' '/' t
  let t := deleteChar '日' t
  t

/-! ## Model of `dateutil.parser.parse`

`parse_date_range` hands each fragment to `dateutil.parser.parse(p, default=
datetime(default_year or now_y, 1, 1))` (source lines 115-123).  The model
below reproduces dateutil 2.9 (the library the program imports) on strings
made of ASCII digits and `/` separators — the shapes the normalizer can
produce from the sites' listings — and treats every other string as a parse
failure.  That is the one deliberate domain restriction, irrelevant to the
fragments this program produces: real dateutil also accepts month names,
colons, full-width digits and the like; all of those are modelled as
failures here.  On its domain the model follows dateutil's
`_parse_numeric_token`, `_ymd.append`, `_ymd.resolve_ymd` and
`parserinfo.convertyear` branch by branch (token values together with their
digit lengths decide year/month/day placement and two-digit-year windowing),
and was validated against the library exhaustively on short strings of the
domain alphabet and on randomized longer ones. -/

def digitVal (c : Char) : Nat := c.toNat - '0'.toNat

/-- dateutil's tokenizer on the modelled domain: maximal runs of ASCII digits
become numeric tokens carrying their value and digit length, each `/` is its
own token, and any other character makes the whole parse fail. -/
inductive DTok where
  | num (v len : Nat)
  | slash
deriving Repr, DecidableEq

def tokenizeGo : Option (Nat × Nat) → List Char → Option (List DTok)
  | cur, [] =>
    some (match cur with | some (v, n) => [DTok.num v n] | none => [])
  | cur, c :: rest =>
    if c.isDigit then
      let v := (cur.map Prod.fst).getD 0
      let n := (cur.map Prod.snd).getD 0
      tokenizeGo (some (v * 10 + digitVal c, n + 1)) rest
    else if c = '/' then
      match cur with
      | some (v, n) => (tokenizeGo none rest).map (fun ts => DTok.num v n :: DTok.slash :: ts)
      | none => (tokenizeGo none rest).map (DTok.slash :: ·)
    else none

def tokenize (l : List Char) : Option (List DTok) := tokenizeGo none l

def isLeapYear (y : Nat) : Bool := y % 4 = 0 && (y % 100 ≠ 0 || y % 400 = 0)

def daysInMonth (y m : Nat) : Nat :=
  if m = 2 then (if isLeapYear y then 29 else 28)
  else if m = 4 || m = 6 || m = 9 || m = 11 then 30
  else 31

/-- `parserinfo.convertyear`: a year below 100 whose century was not spelled
out is moved into the 100-year window centred on the current year `nowY`
(dateutil reads the current year from the system clock, the same
`datetime.now().year` the program itself uses). -/
def convertyear (nowY y : Nat) (century : Bool) : Nat :=
  if y < 100 && !century then
    let y2 := y + nowY / 100 * 100
    if nowY + 50 ≤ y2 then y2 - 100
    else if y2 + 50 < nowY then y2 + 100
    else y2
  else y

/-- The accumulating state of dateutil's `_parse` on the modelled domain:
the `_ymd` member values in append order, the index labelled `Y` (if any),
`century_specified`, and the time-of-day fields. -/
structure DTState where
  vals : List Nat
  ystridx : Option Nat
  century : Bool
  hour : Option Nat
  minute : Option Nat
  second : Option Nat
deriving Repr, DecidableEq

def initState : DTState :=
  { vals := [], ystridx := none, century := false,
    hour := none, minute := none, second := none }

/-- `_ymd.append`: push a member; a `Y`-labelled member when one is already
present raises `Year is already set` and fails the parse. -/
def pushYmd (st : DTState) (v : Nat) (isY : Bool) : Option DTState :=
  if isY && st.ystridx.isSome then none
  else some { st with
    vals := st.vals ++ [v],
    ystridx := if isY then some st.vals.length else st.ystridx,
    century := st.century || isY }

/-- `ymd.append(token_string)`: a token of three or more digits spells out a
century and is labelled `Y`. -/
def appendStr (st : DTState) (v len : Nat) : Option DTState :=
  pushYmd st v (decide (2 < len))

/-- `ymd.append(value)`: a bare numeric value above 100 spells out a century
and is labelled `Y`. -/
def appendVal (st : DTState) (v : Nat) : Option DTState :=
  pushYmd st v (decide (100 < v))

/-- The token walk of dateutil's `_parse` restricted to numeric and `/`
tokens, following `_parse_numeric_token` branch by branch: the hour branch
for a fourth 2- or 4-digit token, the 6-digit `YYMMDD`/`HHMMSS` branch, the
8/12/14-digit `YYYYMMDD[HHMM[SS]]` branch, the separator branch (which
consumes up to three members at once, fails with `IndexError` when a second
separator ends the string, and fails on a `/` where a third member should
be), a trailing bare number appended by value, and `/` skipped as a jump
character.  Fuel-indexed structural recursion; the token count is enough
fuel. -/
def dtWalk : Nat → DTState → List DTok → Option DTState
  | _, st, [] => some st
  | 0, _, _ => none
  | fuel + 1, st, DTok.slash :: rest => dtWalk fuel st rest
  | fuel + 1, st, DTok.num v len :: rest =>
    if st.vals.length == 3 && (len == 2 || len == 4) && st.hour == none then
      let hh := if len == 4 then v / 100 else v
      let mi := if len == 4 then some (v % 100) else st.minute
      dtWalk fuel { st with hour := some hh, minute := mi } rest
    else if len == 6 then
      if st.vals.isEmpty then
        match appendStr st (v / 10000) 2 with
        | none => none
        | some st1 =>
          match appendStr st1 (v / 100 % 100) 2 with
          | none => none
          | some st2 =>
            match appendStr st2 (v % 100) 2 with
            | none => none
            | some st3 => dtWalk fuel st3 rest
      else
        dtWalk fuel { st with hour := some (v / 10000),
                              minute := some (v / 100 % 100),
                              second := some (v % 100) } rest
    else if len == 8 || len == 12 || len == 14 then
      let date := v / 10 ^ (len - 8)
      match appendStr st (date / 10000) 4 with
      | none => none
      | some st1 =>
        match appendStr st1 (date / 100 % 100) 2 with
        | none => none
        | some st2 =>
          match appendStr st2 (date % 100) 2 with
          | none => none
          | some st3 =>
            let st4 :=
              if len == 12 then
                { st3 with hour := some (v / 100 % 100), minute := some (v % 100) }
              else if len == 14 then
                { st3 with hour := some (v / 10000 % 100),
                           minute := some (v / 100 % 100), second := some (v % 100) }
              else st3
            dtWalk fuel st4 rest
    else
      match rest with
      | DTok.slash :: rest2 =>
        match appendStr st v len with
        | none => none
        | some st2 =>
          match rest2 with
          | DTok.num v2 l2 :: rest3 =>
            match appendStr st2 v2 l2 with
            | none => none
            | some st3 =>
              match rest3 with
              | DTok.slash :: rest4 =>
                match rest4 with
                | DTok.num v3 l3 :: rest5 =>
                  match appendStr st3 v3 l3 with
                  | none => none
                  | some st4 => dtWalk fuel st4 rest5
                | _ => none
              | _ => dtWalk fuel st3 rest3
          | _ => dtWalk fuel st2 rest2
      | _ =>
        match appendVal st v with
        | none => none
        | some st2 => dtWalk fuel st2 rest

/-- `_ymd.resolve_ymd` with `yearfirst` and `dayfirst` both false, restricted
to unlabelled or `Y`-labelled members, followed by filling missing fields
from the `default` datetime (`datetime(defYear, 1, 1)`), the two-digit-year
window, and `datetime.replace` validation (years 1-9999, months 1-12, days
within the month, hour at most 23, minute and second at most 59).  An empty
`_ymd` with no time information is `String does not contain a date`; more
than three members is `More than three YMD values`. -/
def resolveState (nowY defYear : Nat) (st : DTState) : Option (Nat × Nat × Nat) :=
  let ymdOpt : Option (Option Nat × Option Nat × Option Nat) :=
    match st.vals with
    | [] => none
    | [v] =>
      if st.ystridx = some 0 then some (some v, none, none)
      else if 31 < v then some (some v, none, none)
      else some (none, none, some v)
    | [a, b] =>
      if 31 < a then some (some a, some b, none)
      else if 31 < b then some (some b, some a, none)
      else some (none, some a, some b)
    | [a, b, c] =>
      if 31 < a ∨ st.ystridx = some 0 then some (some a, some b, some c)
      else if 12 < a then some (some c, some b, some a)
      else some (some c, some a, some b)
    | _ => none
  match ymdOpt with
  | none => none
  | some (oy, om, od) =>
    let y := match oy with
      | none => defYear
      | some yv => convertyear nowY yv st.century
    let m := om.getD 1
    let d := od.getD 1
    let timeOk := (match st.hour with | none => true | some h => h ≤ 23) &&
      (match st.minute with | none => true | some mi => mi ≤ 59) &&
      (match st.second with | none => true | some sec => sec ≤ 59)
    if 1 ≤ y && y ≤ 9999 && 1 ≤ m && m ≤ 12 && 1 ≤ d && d ≤ daysInMonth y m && timeOk
    then some (y, m, d) else none

/-- `dateutil.parser.parse(p, default=datetime(defYear, 1, 1))` on the
modelled domain: tokenize, walk the tokens, resolve. -/
def dtparse (nowY defYear : Nat) (l : List Char) : Option (Nat × Nat × Nat) :=
  match tokenize l with
  | none => none
  | some toks =>
    match dtWalk l.length initState toks with
    | none => none
    | some st => resolveState nowY defYear st

/-! ## `strftime('%Y-%m-%d')` and the `_norm` helper -/

def digitChar (n : Nat) : Char :=
  match n with
  | 0 => '0' | 1 => '1' | 2 => '2' | 3 => '3' | 4 => '4'
  | 5 => '5' | 6 => '6' | 7 => '7' | 8 => '8' | _ => '9'

/-- Decimal digits of a natural number, most significant first (fuel-indexed
structural recursion; fuel `n` always suffices). -/
def natDigitsFuel : Nat → Nat → List Char
  | 0, n => [digitChar n]
  | fuel + 1, n =>
    if n < 10 then [digitChar n]
    else natDigitsFuel fuel (n / 10) ++ [digitChar (n % 10)]

def natDigits (n : Nat) : List Char := natDigitsFuel n n

/-- `%m` / `%d`: zero-padded to two digits. -/
def pad2 (n : Nat) : List Char :=
  if n < 10 then ['0', digitChar n] else natDigits n

/-- `dt.strftime('%Y-%m-%d')` on Linux: the year is printed unpadded (e.g.
year 220 prints as `220`), month and day are zero-padded to two digits. -/
def fmtDate (y m d : Nat) : List Char :=
  natDigits y ++ '-' :: (pad2 m ++ '-' :: pad2 d)

/-- `int(s.split('-')[0])` on a `%Y-%m-%d` string: the year digits before the
first dash. -/
def extractYear (s : List Char) : Nat :=
  (s.takeWhile fun c => ¬ c = '-').foldl (fun a c => a * 10 + digitVal c) 0

/-- The inner `_norm(p, default_year=None)` of `parse_date_range` (source
lines 115-123): empty fragments give `None`; the default datetime is
`datetime(default_year or now_y, 1, 1)` (Python `or`, so a zero default falls
back to `now_y`, and a default year outside datetime's 1-9999 range raises
and is caught); a parse failure is caught and gives `None`; a success is
formatted with `strftime('%Y-%m-%d')`. -/
def pyNorm (nowY : Nat) (defaultYear : Option Nat) (p : List Char) : Option String :=
  if p = [] then none
  else
    let dy := match defaultYear with
      | none => nowY
      | some 0 => nowY
      | some y => y
    if dy < 1 || 9999 < dy then none
    else
      match dtparse nowY dy p with
      | none => none
      | some (y, m, d) => some (String.mk (fmtDate y m d))

/-! ## `parse_date_range` (source lines 87-133) -/

/-- `year_for_right = int(s.split('-')[0]) if s else now_y` (source line
128): the default year for the right fragment is the parsed left year when
the left side parsed, else the current year. -/
def yearOf (nowY : Nat) (s : Option String) : Nat :=
  match s with
  | some str => extractYear str.data
  | none => nowY

/-- `parse_date_range(text)`: falsy input gives `(None, None)`; otherwise the
text is normalized (`pdrNormalize`) and split on `〜`.  Exactly two parts:
parse the left with the current year as default, then parse the right with
`default_year = int(s.split('-')[0]) if s else now_y`.  Any other number of
parts: parse the whole normalized text as a single date `d` and return
`(d, d)`.  `nowY` is `datetime.now().year`, an input from the environment. -/
def parse_date_range (nowY : Nat) (text : String) : Option String × Option String :=
  if text = "" then (none, none)
  else
    let t := pdrNormalize text
    match splitOnChar '〜' t with
    | [left, right] =>
      let s := pyNorm nowY none left
      let yearForRight := yearOf nowY s
      let e := pyNorm nowY (some yearForRight) right
      (s, e)
    | _ =>
      let d := pyNorm nowY none t
      (d, d)

/-! ## Per-row assembly in the three extractors

HTML fetching and DOM traversal are external; these functions take the
already-extracted cell texts and perform exactly the row construction and
acceptance test of the source (`if title and (start or end): rows.append(...)`
at lines 183-191, 358-367 and 463-471). -/

/-- One raw event row as appended by the extractors. -/
structure RawRow where
  source : String
  title : String
  start_date : Option String
  end_date : Option String
  venue : Option String
  url : Option String
deriving Repr, DecidableEq

/-- Python truthiness of an optional string: `None` and `''` are falsy. -/
def pyTruthy : Option String → Bool
  | none => false
  | some s => !(s = "")

/-- `fetch_kagaku`, lines 170-191: the title, date and venue cells are
`get_text` strings, the link an optional external `href`; the row is appended
iff the title is truthy and `parse_date_range(date_text or "")` yields at
least one date. -/
def kagaku_row (nowY : Nat) (title date_text venue : String)
    (link : Option String) : Option RawRow :=
  let se := parse_date_range nowY date_text
  if !(title = "") && (se.1.isSome || se.2.isSome) then
    some { source := "kagaku", title := title, start_date := se.1,
           end_date := se.2, venue := some venue, url := link }
  else none

/-- `_parse_article` in `fetch_bigsight`, lines 274-367: title, venue and url
come from the DOM, start/end from the `_find_dates` regex chain; the dict is
returned iff the title is truthy and a date was found, else `None`. -/
def bigsight_row (title : Option String) (start_date end_date : Option String)
    (venue url : Option String) : Option RawRow :=
  if pyTruthy title && (start_date.isSome || end_date.isSome) then
    some { source := "bigsight", title := title.getD "", start_date := start_date,
           end_date := end_date, venue := venue, url := url }
  else none

/-- `fetch_makuhari`, lines 441-471: column 0 is the date text, column 1 the
title (may be missing), column 2 the venue; the row is appended iff the title
is truthy and `parse_date_range(date_text)` yields at least one date. -/
def makuhari_row (nowY : Nat) (date_text : String) (title venue link : Option String) :
    Option RawRow :=
  let se := parse_date_range nowY date_text
  if pyTruthy title && (se.1.isSome || se.2.isSome) then
    some { source := "makuhari", title := title.getD "", start_date := se.1,
           end_date := se.2, venue := venue, url := link }
  else none

/-! ## `collect_all` (source lines 478-508)

Each fetcher performs network I/O; `collect_all` only observes, per fetcher,
either an exception (caught at line 488) or the list of rows of the returned
DataFrame.  The embedding therefore takes the three fetch outcomes as a list.
All fetcher DataFrames carry exactly the `keep_cols` columns, so the
column-alignment loop at lines 497-500 is the identity and the column
selection only fixes the order. -/

/-- What `collect_all` observes of one fetcher call. -/
inductive FetchOutcome where
  | ok (rows : List RawRow)
  | err (msg : String)
deriving Repr, DecidableEq

/-- A row of the output frame after `out["last_seen_at"] = ...` (line 504). -/
structure StampedRow where
  row : RawRow
  last_seen_at : String
deriving Repr, DecidableEq

/-- The output DataFrame: its column labels and its rows. -/
structure OutTable where
  cols : List String
  rows : List StampedRow
deriving Repr, DecidableEq

def keep_cols : List String :=
  ["source", "title", "start_date", "end_date", "venue", "url"]

/-- The `drop_duplicates` subset key (line 507):
`(source, title, start_date, url)`.  pandas compares missing values as equal
inside `duplicated`, which `Option` equality mirrors. -/
def rowKey (r : RawRow) : String × String × Option String × Option String :=
  (r.source, r.title, r.start_date, r.url)

/-- `DataFrame.drop_duplicates(subset=...)` with the default `keep='first'`:
keep each row whose key has not occurred before, preserving order. -/
def dedupFirst : List StampedRow → List (String × String × Option String × Option String) →
    List StampedRow
  | [], _ => []
  | r :: rest, seen =>
    if rowKey r.row ∈ seen then dedupFirst rest seen
    else r :: dedupFirst rest (rowKey r.row :: seen)

/-- The `dfs` accumulation loop (lines 479-489): a fetcher that raises is
caught and contributes nothing; an empty DataFrame is logged and skipped;
a non-empty one is appended. -/
def collectDfs (outcomes : List FetchOutcome) : List (List RawRow) :=
  outcomes.filterMap fun o =>
    match o with
    | FetchOutcome.ok rows => if rows.isEmpty then none else some rows
    | FetchOutcome.err _ => none

/-- `collect_all`: with no usable DataFrame, an empty frame with the six
`keep_cols` columns (line 492); otherwise concatenate, align columns, stamp
`last_seen_at` with the run date, and `drop_duplicates` on
`(source, title, start_date, url)` keeping first occurrences. -/
def collect_all (today : String) (outcomes : List FetchOutcome) : OutTable :=
  let dfs := collectDfs outcomes
  if dfs.isEmpty then
    { cols := keep_cols, rows := [] }
  else
    let out := dfs.flatten
    let stamped := out.map fun r => { row := r, last_seen_at := today : StampedRow }
    { cols := keep_cols ++ ["last_seen_at"], rows := dedupFirst stamped [] }

/-! ## Derived predicates used in the claim statements -/

/-- The input text is wholly unparseable for `parse_date_range`: after
normalization and splitting, every fragment the function attempts fails.
With exactly two fragments the function attempts the left with the current
year as default and (the left having failed) the right with the current year
as default; in every other case it attempts the whole normalized text. -/
def whollyUnparseable (nowY : Nat) (text : String) : Prop :=
  (∀ left right, splitOnChar '〜' (pdrNormalize text) = [left, right] →
    pyNorm nowY none left = none ∧ pyNorm nowY (some nowY) right = none) ∧
  ((splitOnChar '〜' (pdrNormalize text)).length = 2 ∨
    pyNorm nowY none (pdrNormalize text) = none)

/-- Every fetch outcome is an exception or an empty DataFrame, so the `dfs`
list of `collect_all` stays empty. -/
def allFruitless (outcomes : List FetchOutcome) : Bool :=
  outcomes.all fun o =>
    match o with
    | FetchOutcome.ok rows => rows.isEmpty
    | FetchOutcome.err _ => true

/-- Rows for the ordering scenario of the specification: start dates
2026-05-01, missing, 2026-01-10 in encounter order. -/
def sortRowA : RawRow :=
  { source := "kagaku", title := "A", start_date := some "2026-05-01",
    end_date := some "2026-05-02", venue := some "Hall 1", url := none }

def sortRowB : RawRow :=
  { source := "kagaku", title := "B", start_date := none,
    end_date := some "2026-06-01", venue := some "Hall 2", url := none }

def sortRowC : RawRow :=
  { source := "kagaku", title := "C", start_date := some "2026-01-10",
    end_date := some "2026-01-11", venue := some "Hall 3", url := none }

/-- Two rows that agree on the deduplication key `(source, title,
start_date, url)` but disagree on venue. -/
def dupRow1 : RawRow :=
  { source := "makuhari", title := "Expo A", start_date := some "2026-03-01",
    end_date := some "2026-03-03", venue := some "Hall 1", url := some "http://x" }

def dupRow2 : RawRow :=
  { source := "makuhari", title := "Expo A", start_date := some "2026-03-01",
    end_date := some "2026-03-01", venue := some "Hall 9", url := some "http://x" }

/-! ## Helper lemmas -/

theorem isDigit_toNat {c : Char} (h : c.isDigit = true) :
    48 ≤ c.toNat ∧ c.toNat ≤ 57 := by
  simpa [Char.isDigit] using h

theorem isDigit_ne {c x : Char} (h : c.isDigit = true)
    (hx : ¬ (48 ≤ x.toNat ∧ x.toNat ≤ 57)) : ¬ c = x := by
  intro he
  subst he
  exact hx (isDigit_toNat h)

theorem stripGroupsFuel_id (openC closeC : Char) :
    ∀ (fuel : Nat) (l : List Char), openC ∉ l →
      stripGroupsFuel openC closeC fuel l = l := by
  intro fuel
  induction fuel with
  | zero => intro l _; rfl
  | succ n ih =>
    intro l hl
    cases l with
    | nil => rfl
    | cons c rest =>
      have hc : ¬ c = openC := by
        intro h
        exact hl (by simp [h])
      simp only [stripGroupsFuel, if_neg hc]
      rw [ih rest fun h => hl (List.mem_cons_of_mem _ h)]

theorem stripGroups_id {openC : Char} (closeC : Char) {l : List Char}
    (h : openC ∉ l) : stripGroups openC closeC l = l :=
  stripGroupsFuel_id openC closeC l.length l h

theorem stripWeekdays_cons_of {c : Char} (h : isWeekdayKanji c = false)
    (l : List Char) : stripWeekdays (c :: l) = c :: stripWeekdays l := by
  cases l <;> simp [stripWeekdays, h]

theorem stripWeekdays_id {l : List Char}
    (h : ∀ c ∈ l, isWeekdayKanji c = false) : stripWeekdays l = l := by
  induction l with
  | nil => rfl
  | cons c rest ih =>
    rw [stripWeekdays_cons_of (h c (by simp)) rest,
      ih fun x hx => h x (List.mem_cons_of_mem _ hx)]

theorem foldlReplace_cons :
    ∀ (gl : List Char) (c : Char) (l : List Char),
      gl.foldl (fun acc ch => replaceChar ch '〜' acc) (c :: l) =
        gl.foldl (fun x ch => if x = ch then '〜' else x) c ::
          gl.foldl (fun acc ch => replaceChar ch '〜' acc) l := by
  intro gl
  induction gl with
  | nil => intro c l; rfl
  | cons g rest ih =>
    intro c l
    simp only [List.foldl_cons]
    rw [show replaceChar g '〜' (c :: l) =
      (if c = g then '〜' else c) :: replaceChar g '〜' l from rfl]
    exact ih _ _

theorem normalizeSeps_nil : normalizeSeps [] = [] := by rfl

theorem normalizeSeps_cons (c : Char) (l : List Char) :
    normalizeSeps (c :: l) = normSepChar c :: normalizeSeps l :=
  foldlReplace_cons sepGlyphs c l

theorem normalizeSeps_append (a b : List Char) :
    normalizeSeps (a ++ b) = normalizeSeps a ++ normalizeSeps b := by
  induction a with
  | nil => simp [normalizeSeps_nil]
  | cons c rest ih => simp [normalizeSeps_cons, ih]

theorem normSepChar_digit {c : Char} (hc : c.isDigit = true) :
    normSepChar c = c := by
  have h1 : ¬ c = '〜' := isDigit_ne hc (by decide)
  have h2 : ¬ c = '～' := isDigit_ne hc (by decide)
  have h3 : ¬ c = '-' := isDigit_ne hc (by decide)
  have h4 : ¬ c = '−' := isDigit_ne hc (by decide)
  have h5 : ¬ c = '—' := isDigit_ne hc (by decide)
  have h6 : ¬ c = '–' := isDigit_ne hc (by decide)
  have h7 : ¬ c = '－' := isDigit_ne hc (by decide)
  have h8 : ¬ c = '―' := isDigit_ne hc (by decide)
  simp only [normSepChar, sepGlyphs, List.foldl_cons, List.foldl_nil,
    if_neg h1, if_neg h2, if_neg h3, if_neg h4, if_neg h5, if_neg h6,
    if_neg h7, if_neg h8]

theorem normSepChar_dash : normSepChar '-' = '〜' := by decide

theorem normSepChar_tilde : normSepChar '〜' = '〜' := by decide

theorem normalizeSeps_digits {l : List Char}
    (h : ∀ c ∈ l, c.isDigit = true) : normalizeSeps l = l := by
  induction l with
  | nil => rfl
  | cons c rest ih =>
    rw [normalizeSeps_cons, normSepChar_digit (h c (by simp)),
      ih fun x hx => h x (List.mem_cons_of_mem _ hx)]

set_option maxHeartbeats 1000000 in
theorem normalizeSeps_good {l : List Char}
    (h : ∀ c ∈ l, c.isDigit = true ∨ c = '-' ∨ c = '〜') :
    ∀ c ∈ normalizeSeps l, c.isDigit = true ∨ c = '〜' := by
  induction l with
  | nil =>
    rw [normalizeSeps_nil]
    intro x hx
    simp at hx
  | cons c rest ih =>
    rw [normalizeSeps_cons]
    intro x hx
    rcases List.mem_cons.mp hx with he | hm
    · rw [he]
      rcases h c (List.mem_cons_self c rest) with hd | hd | hd
      · rw [normSepChar_digit hd]
        exact Or.inl hd
      · rw [hd, normSepChar_dash]
        exact Or.inr rfl
      · rw [hd, normSepChar_tilde]
        exact Or.inr rfl
    · exact ih (fun y hy => h y (List.mem_cons_of_mem _ hy)) x hm

theorem replaceChar_id {a b : Char} {l : List Char} (h : ∀ c ∈ l, ¬ c = a) :
    replaceChar a b l = l := by
  induction l with
  | nil => rfl
  | cons c rest ih =>
    simp only [replaceChar, List.map_cons, if_neg (h c (by simp))]
    rw [show List.map (fun c => if c = a then b else c) rest = replaceChar a b rest from rfl,
      ih fun x hx => h x (List.mem_cons_of_mem _ hx)]

theorem deleteChar_id {a : Char} {l : List Char} (h : ∀ c ∈ l, ¬ c = a) :
    deleteChar a l = l := by
  unfold deleteChar
  apply List.filter_eq_self.mpr
  intro c hc
  simpa using h c hc

theorem digitChar_isDigit (n : Nat) : (digitChar n).isDigit = true := by
  unfold digitChar
  split <;> decide

theorem natDigitsFuel_isDigit :
    ∀ (fuel n : Nat), ∀ c ∈ natDigitsFuel fuel n, c.isDigit = true := by
  intro fuel
  induction fuel with
  | zero =>
    intro n c hc
    simp only [natDigitsFuel, List.mem_singleton] at hc
    subst hc
    exact digitChar_isDigit n
  | succ k ih =>
    intro n c hc
    simp only [natDigitsFuel] at hc
    by_cases h : n < 10
    · rw [if_pos h] at hc
      simp only [List.mem_singleton] at hc
      subst hc
      exact digitChar_isDigit n
    · rw [if_neg h] at hc
      rcases List.mem_append.mp hc with h1 | h2
      · exact ih _ _ h1
      · simp only [List.mem_singleton] at h2
        subst h2
        exact digitChar_isDigit _

theorem natDigits_isDigit (n : Nat) : ∀ c ∈ natDigits n, c.isDigit = true :=
  natDigitsFuel_isDigit n n

theorem pad2_isDigit (n : Nat) : ∀ c ∈ pad2 n, c.isDigit = true := by
  intro c hc
  unfold pad2 at hc
  by_cases h : n < 10
  · rw [if_pos h] at hc
    rcases List.mem_cons.mp hc with he | hc
    · subst he
      decide
    · simp only [List.mem_singleton] at hc
      subst hc
      exact digitChar_isDigit n
  · rw [if_neg h] at hc
    exact natDigits_isDigit n c hc

theorem fmtDate_chars (y m d : Nat) :
    ∀ c ∈ fmtDate y m d, c.isDigit = true ∨ c = '-' := by
  intro c hc
  unfold fmtDate at hc
  rcases List.mem_append.mp hc with h1 | h2
  · exact Or.inl (natDigits_isDigit y c h1)
  · rcases List.mem_cons.mp h2 with he | h2
    · exact Or.inr he
    · rcases List.mem_append.mp h2 with h3 | h4
      · exact Or.inl (pad2_isDigit m c h3)
      · rcases List.mem_cons.mp h4 with he | h4
        · exact Or.inr he
        · exact Or.inl (pad2_isDigit d c h4)

theorem splitOnChar_ne_nil (sep : Char) (l : List Char) :
    splitOnChar sep l ≠ [] := by
  induction l with
  | nil => simp [splitOnChar]
  | cons c rest ih =>
    simp only [splitOnChar]
    by_cases h : c = sep
    · simp [h]
    · rw [if_neg h]
      cases hr : splitOnChar sep rest with
      | nil => exact absurd hr ih
      | cons a b => simp

theorem splitOnChar_length (sep : Char) (l : List Char) :
    (splitOnChar sep l).length = l.count sep + 1 := by
  induction l with
  | nil => simp [splitOnChar]
  | cons c rest ih =>
    simp only [splitOnChar]
    by_cases h : c = sep
    · rw [if_pos h]
      simp only [List.length_cons, ih, List.count_cons]
      simp [h]
    · rw [if_neg h]
      cases hr : splitOnChar sep rest with
      | nil => exact absurd hr (splitOnChar_ne_nil sep rest)
      | cons a b =>
        rw [hr] at ih
        simp only [List.length_cons] at ih ⊢
        have hbeq : (c == sep) = false := by
          simpa using h
        simp [List.count_cons, hbeq, ← ih]

theorem count_tilde_eq_zero {l : List Char} (h : ∀ c ∈ l, c.isDigit = true) :
    l.count '〜' = 0 := by
  rw [List.count_eq_zero]
  intro hmem
  simpa using h _ hmem

theorem count_normalizeSeps_fmtDate (y m d : Nat) :
    (normalizeSeps (fmtDate y m d)).count '〜' = 2 := by
  unfold fmtDate
  rw [normalizeSeps_append, normalizeSeps_cons, normSepChar_dash,
    normalizeSeps_append, normalizeSeps_cons, normSepChar_dash,
    normalizeSeps_digits (natDigits_isDigit y),
    normalizeSeps_digits (pad2_isDigit m),
    normalizeSeps_digits (pad2_isDigit d)]
  simp [List.count_append, List.count_cons,
    count_tilde_eq_zero (natDigits_isDigit y),
    count_tilde_eq_zero (pad2_isDigit m),
    count_tilde_eq_zero (pad2_isDigit d)]

theorem tokenizeGo_eq_none {x : Char} (hxd : x.isDigit = false) (hxs : ¬ x = '/') :
    ∀ (l : List Char) (cur : Option (Nat × Nat)), x ∈ l → tokenizeGo cur l = none := by
  intro l
  induction l with
  | nil =>
    intro cur h
    simp at h
  | cons c rest ih =>
    intro cur h
    simp only [tokenizeGo]
    by_cases hc : c.isDigit
    · rw [if_pos hc]
      apply ih
      rcases List.mem_cons.mp h with he | hm
      · rw [he] at hxd
        rw [hc] at hxd
        exact absurd hxd (by simp)
      · exact hm
    · rw [if_neg hc]
      by_cases hs : c = '/'
      · rw [if_pos hs]
        have hm : x ∈ rest := by
          rcases List.mem_cons.mp h with he | hm
          · exact absurd (he.trans hs) hxs
          · exact hm
        have hnone := ih none hm
        cases cur with
        | none => simp [hnone]
        | some r =>
          rcases r with ⟨v, n⟩
          simp [hnone]
      · rw [if_neg hs]

theorem pyNorm_eq_none_of_mem {x : Char} (hxd : x.isDigit = false)
    (hxs : ¬ x = '/') (nowY : Nat) (dy : Option Nat) {l : List Char}
    (hx : x ∈ l) : pyNorm nowY dy l = none := by
  have hne : ¬ l = [] := by
    rintro rfl
    simp at hx
  have htok : tokenize l = none := tokenizeGo_eq_none hxd hxs l none hx
  simp only [pyNorm, dtparse, if_neg hne, htok]
  split <;> rfl

theorem parse_date_range_other {nowY : Nat} {text : String}
    (hne : ¬ text = "")
    (hlen : (splitOnChar '〜' (pdrNormalize text)).length ≠ 2) :
    parse_date_range nowY text =
      (pyNorm nowY none (pdrNormalize text), pyNorm nowY none (pdrNormalize text)) := by
  unfold parse_date_range
  rw [if_neg hne]
  simp only []
  rcases hsp : splitOnChar '〜' (pdrNormalize text) with _ | ⟨p1, tl1⟩
  · exact absurd hsp (splitOnChar_ne_nil _ _)
  · rcases tl1 with _ | ⟨p2, tl2⟩
    · rfl
    · rcases tl2 with _ | ⟨p3, tl3⟩
      · rw [hsp] at hlen
        simp at hlen
      · rfl

theorem parse_date_range_two {nowY : Nat} {text : String} {left right : List Char}
    (hsp : splitOnChar '〜' (pdrNormalize text) = [left, right]) :
    parse_date_range nowY text =
      (pyNorm nowY none left,
        pyNorm nowY (some (yearOf nowY (pyNorm nowY none left))) right) := by
  have hne : ¬ text = "" := by
    rintro rfl
    rw [show pdrNormalize "" = [] from rfl] at hsp
    simp [splitOnChar] at hsp
  unfold parse_date_range
  rw [if_neg hne]
  simp only []
  rw [hsp]

theorem whollyUnparseable_two {nowY : Nat} {text : String} {l r : List Char}
    (hsp : splitOnChar '〜' (pdrNormalize text) = [l, r]) :
    whollyUnparseable nowY text ↔
      (pyNorm nowY none l = none ∧ pyNorm nowY (some nowY) r = none) := by
  constructor
  · intro h
    exact h.1 l r hsp
  · intro h
    refine ⟨fun x y hsp2 => ?_, Or.inl (by rw [hsp]; rfl)⟩
    rw [hsp] at hsp2
    injection hsp2 with h1 h2
    injection h2 with h2 h3
    subst h1
    subst h2
    exact h

theorem whollyUnparseable_other {nowY : Nat} {text : String}
    (hlen : (splitOnChar '〜' (pdrNormalize text)).length ≠ 2) :
    whollyUnparseable nowY text ↔
      pyNorm nowY none (pdrNormalize text) = none := by
  constructor
  · intro h
    rcases h.2 with h2 | h2
    · exact absurd h2 hlen
    · exact h2
  · intro h
    refine ⟨fun x y hsp2 => ?_, Or.inr h⟩
    rw [hsp2] at hlen
    simp at hlen

theorem dedupFirst_sublist :
    ∀ (l : List StampedRow) (seen), List.Sublist (dedupFirst l seen) l := by
  intro l
  induction l with
  | nil =>
    intro seen
    simp [dedupFirst]
  | cons r rest ih =>
    intro seen
    simp only [dedupFirst]
    by_cases h : rowKey r.row ∈ seen
    · rw [if_pos h]
      exact (ih _).trans (List.sublist_cons_self _ _)
    · rw [if_neg h]
      exact List.Sublist.cons₂ _ (ih _)

theorem collectDfs_append (a b : List FetchOutcome) :
    collectDfs (a ++ b) = collectDfs a ++ collectDfs b := by
  simp [collectDfs, List.filterMap_append]

theorem collectDfs_err_cons (msg : String) (ys : List FetchOutcome) :
    collectDfs (FetchOutcome.err msg :: ys) = collectDfs ys := by
  simp [collectDfs]

theorem collectDfs_okNil_cons (ys : List FetchOutcome) :
    collectDfs (FetchOutcome.ok [] :: ys) = collectDfs ys := by
  simp [collectDfs]

theorem collectDfs_eq_nil_iff (outcomes : List FetchOutcome) :
    collectDfs outcomes = [] ↔ allFruitless outcomes = true := by
  induction outcomes with
  | nil => simp [collectDfs, allFruitless]
  | cons o rest ih =>
    cases o with
    | err msg =>
      rw [collectDfs_err_cons]
      simpa [allFruitless] using ih
    | ok rows =>
      by_cases h : rows.isEmpty
      · have h0 : rows = [] := by simpa [List.isEmpty_iff] using h
        subst h0
        rw [collectDfs_okNil_cons]
        simpa [allFruitless] using ih
      · have h0 : ¬ rows = [] := by
          simpa [List.isEmpty_iff] using h
        have hcons : collectDfs (FetchOutcome.ok rows :: rest) = rows :: collectDfs rest := by
          simp [collectDfs, List.filterMap_cons, h0]
        rw [hcons]
        simp [allFruitless, List.isEmpty_iff, h0]

theorem ne_nil_of_mem_collectDfs {outcomes : List FetchOutcome}
    {l : List RawRow} (h : l ∈ collectDfs outcomes) : l ≠ [] := by
  simp only [collectDfs, List.mem_filterMap] at h
  obtain ⟨o, _, ho⟩ := h
  cases o with
  | err msg => simp at ho
  | ok rows =>
    simp only at ho
    by_cases he : rows.isEmpty
    · rw [if_pos he] at ho
      simp at ho
    · rw [if_neg he] at ho
      simp only [Option.some.injEq] at ho
      subst ho
      simpa [List.isEmpty_iff] using he

/-! ## Theorems for the claims -/

/-- C1: the claim says `parse_date_range "2026年2月18日"` returns the pair
`("2026-02-18", "2026-02-18")`.  In the code the weekday-stripping
substitution runs before the kanji date markers are converted, so the `月`
and `日` of the date itself are deleted as weekday characters: the text
normalizes to `2026/218`, which `dateutil` rejects (`218` cannot be a second
member next to a four-digit year), and the function returns `(None, None)` —
contradicting the function's own docstring example
`'2026年02月18日（水）～2026年02月20日（金）' -> (YYYY-MM-DD, YYYY-MM-DD)`. -/
theorem C1_kanji_single_date_lost :
    parse_date_range 2026 "2026年2月18日" = (none, none) ∧
    pdrNormalize "2026年2月18日" = "2026/218".data ∧
    parse_date_range 2026 "2026年02月18日（水）～2026年02月20日（金）" = (none, none) := by
  decide

/-- C2: the claim says `parse_date_range "2026年2月18日（水）〜2月20日（金）"`
returns `("2026-02-18", "2026-02-20")` with the right side inheriting the
left's year.  In the code the weekday strip deletes the `月`/`日` date
markers first, the fragments become `2026/218` and `220`, the left fails, and
the right parses as the bare year 220, giving `(None, "220-01-01")`. -/
theorem C2_right_fragment_reads_year_220 :
    parse_date_range 2026 "2026年2月18日（水）〜2月20日（金）" = (none, some "220-01-01") ∧
    splitOnChar '〜' (pdrNormalize "2026年2月18日（水）〜2月20日（金）") =
      ["2026/218".data, "220".data] := by
  decide

/-- C3 counterexample: `collect_all` emits the scenario rows with start
dates 2026-05-01, null, 2026-01-10 in their encounter order, not in the
sorted nulls-last order `[2026-01-10, 2026-05-01, null]` the claim asserts. -/
theorem C3_no_sort_counterexample :
    (collect_all "2026-10-12" [FetchOutcome.ok [sortRowA, sortRowB, sortRowC]]).rows.map
        (fun r => r.row.start_date) =
      [some "2026-05-01", none, some "2026-01-10"] ∧
    ([some "2026-05-01", none, some "2026-01-10"] : List (Option String)) ≠
      [some "2026-01-10", some "2026-05-01", none] := by
  decide

set_option maxHeartbeats 1600000 in
/-- C4 (amended): for every pair of dates, applying `parse_date_range` to
the reconstructed string `{start}〜{end}` with both sides in the function's
own ISO `YYYY-MM-DD` output format returns `(None, None)`, not `(start,
end)`: the separator-normalization loop turns the four ISO hyphens into `〜`,
the split produces six fragments instead of two, and the whole normalized
text (which still contains `〜`) fails to parse.  Normalization is therefore
not idempotent on the function's ISO output. -/
theorem C4_iso_roundtrip_degenerates (nowY y1 m1 d1 y2 m2 d2 : Nat) :
    parse_date_range nowY
      (String.mk (fmtDate y1 m1 d1 ++ '〜' :: fmtDate y2 m2 d2)) = (none, none) := by
  have hg1 := fmtDate_chars y1 m1 d1
  have hg2 := fmtDate_chars y2 m2 d2
  have hGood : ∀ c ∈ fmtDate y1 m1 d1 ++ '〜' :: fmtDate y2 m2 d2,
      c.isDigit = true ∨ c = '-' ∨ c = '〜' := by
    intro c hc
    rcases List.mem_append.mp hc with h | h
    · rcases hg1 c h with h' | h'
      · exact Or.inl h'
      · exact Or.inr (Or.inl h')
    · rcases List.mem_cons.mp h with h' | h'
      · exact Or.inr (Or.inr h')
      · rcases hg2 c h' with h2 | h2
        · exact Or.inl h2
        · exact Or.inr (Or.inl h2)
  have hne : ¬ String.mk (fmtDate y1 m1 d1 ++ '〜' :: fmtDate y2 m2 d2) = "" := by
    intro he
    have hdata : fmtDate y1 m1 d1 ++ '〜' :: fmtDate y2 m2 d2 = ([] : List Char) :=
      congrArg String.data he
    simp at hdata
  have hnotmem : ∀ x : Char, x.isDigit = false → ¬ x = '-' → ¬ x = '〜' →
      x ∉ fmtDate y1 m1 d1 ++ '〜' :: fmtDate y2 m2 d2 := by
    intro x hxd hx1 hx2 hmem
    rcases hGood x hmem with h | h | h
    · rw [hxd] at h
      exact absurd h (by simp)
    · exact hx1 h
    · exact hx2 h
  have hweek : ∀ c ∈ fmtDate y1 m1 d1 ++ '〜' :: fmtDate y2 m2 d2,
      isWeekdayKanji c = false := by
    intro c hc
    rcases hGood c hc with h | h | h
    · have h1 : ¬ c = '月' := isDigit_ne h (by decide)
      have h2 : ¬ c = '火' := isDigit_ne h (by decide)
      have h3 : ¬ c = '水' := isDigit_ne h (by decide)
      have h4 : ¬ c = '木' := isDigit_ne h (by decide)
      have h5 : ¬ c = '金' := isDigit_ne h (by decide)
      have h6 : ¬ c = '土' := isDigit_ne h (by decide)
      have h7 : ¬ c = '日' := isDigit_ne h (by decide)
      simp [isWeekdayKanji, h1, h2, h3, h4, h5, h6, h7]
    · rw [h]
      decide
    · rw [h]
      decide
  have hspace : ∀ c ∈ fmtDate y1 m1 d1 ++ '〜' :: fmtDate y2 m2 d2,
      isPySpace c = false := by
    intro c hc
    rcases hGood c hc with h | h | h
    · have hb := isDigit_toNat h
      simp [isPySpace]
      omega
    · rw [h]
      decide
    · rw [h]
      decide
  have hnorm : pdrNormalize (String.mk (fmtDate y1 m1 d1 ++ '〜' :: fmtDate y2 m2 d2)) =
      normalizeSeps (fmtDate y1 m1 d1 ++ '〜' :: fmtDate y2 m2 d2) := by
    have hGoodNS := normalizeSeps_good hGood
    have hyear : ∀ c ∈ normalizeSeps (fmtDate y1 m1 d1 ++ '〜' :: fmtDate y2 m2 d2),
        ¬ c = '年' := by
      intro c hc
      rcases hGoodNS c hc with h | h
      · exact isDigit_ne h (by decide)
      · rw [h]
        decide
    have hmonth : ∀ c ∈ normalizeSeps (fmtDate y1 m1 d1 ++ '〜' :: fmtDate y2 m2 d2),
        ¬ c = '月' := by
      intro c hc
      rcases hGoodNS c hc with h | h
      · exact isDigit_ne h (by decide)
      · rw [h]
        decide
    have hday : ∀ c ∈ normalizeSeps (fmtDate y1 m1 d1 ++ '〜' :: fmtDate y2 m2 d2),
        ¬ c = '日' := by
      intro c hc
      rcases hGoodNS c hc with h | h
      · exact isDigit_ne h (by decide)
      · rw [h]
        decide
    have hfilter : (fmtDate y1 m1 d1 ++ '〜' :: fmtDate y2 m2 d2).filter
        (fun c => ¬ isPySpace c) = fmtDate y1 m1 d1 ++ '〜' :: fmtDate y2 m2 d2 := by
      apply List.filter_eq_self.mpr
      intro c hc
      simp [hspace c hc]
    simp only [pdrNormalize]
    rw [stripGroups_id '）' (hnotmem '（' (by decide) (by decide) (by decide)),
      stripGroups_id ')' (hnotmem '(' (by decide) (by decide) (by decide)),
      stripWeekdays_id hweek, hfilter, replaceChar_id hyear,
      replaceChar_id hmonth, deleteChar_id hday]
  have hcount : (normalizeSeps (fmtDate y1 m1 d1 ++ '〜' :: fmtDate y2 m2 d2)).count '〜' = 5 := by
    rw [normalizeSeps_append, normalizeSeps_cons, normSepChar_tilde]
    simp [List.count_append, List.count_cons, count_normalizeSeps_fmtDate]
  have hmem : ('〜' : Char) ∈ normalizeSeps (fmtDate y1 m1 d1 ++ '〜' :: fmtDate y2 m2 d2) := by
    rw [normalizeSeps_append, normalizeSeps_cons, normSepChar_tilde]
    simp
  have hlen : (splitOnChar '〜'
      (pdrNormalize (String.mk (fmtDate y1 m1 d1 ++ '〜' :: fmtDate y2 m2 d2)))).length = 6 := by
    rw [hnorm, splitOnChar_length, hcount]
  have hpn : pyNorm nowY none
      (pdrNormalize (String.mk (fmtDate y1 m1 d1 ++ '〜' :: fmtDate y2 m2 d2))) = none := by
    apply pyNorm_eq_none_of_mem (x := '〜') (by decide) (by decide)
    rw [hnorm]
    exact hmem
  rw [parse_date_range_other hne (by rw [hlen]; decide), hpn]

/-- C4 counterexample: re-running the normalizer on its own ISO output
joined by `〜` is not the identity: the separator-normalization loop turns
the ISO hyphens themselves into `〜`, the split yields six fragments, and the
result is `(None, None)`. -/
theorem C4_iso_roundtrip_counterexample :
    parse_date_range 2026 "2026-02-18〜2026-02-20" = (none, none) ∧
    ((none, none) : Option String × Option String) ≠
      (some "2026-02-18", some "2026-02-20") := by
  decide

/-- C3 (amended): `collect_all` applies no sorting: its output rows are a
sublist, in encounter order, of the stamped concatenation of the usable
fetch results, and in particular the scenario rows with start dates
2026-05-01, null, 2026-01-10 come out in exactly that encounter order. -/
theorem C3_rows_keep_encounter_order (today : String) (outcomes : List FetchOutcome) :
    List.Sublist (collect_all today outcomes).rows
      ((collectDfs outcomes).flatten.map fun r => { row := r, last_seen_at := today }) ∧
    (collect_all "2026-10-12" [FetchOutcome.ok [sortRowA, sortRowB, sortRowC]]).rows.map
        (fun r => r.row.start_date) =
      [some "2026-05-01", none, some "2026-01-10"] := by
  constructor
  · unfold collect_all
    by_cases h : (collectDfs outcomes).isEmpty = true
    · rw [if_pos h]
      exact List.nil_sublist _
    · rw [if_neg h]
      exact dedupFirst_sublist _ _
  · decide

/-- C5: `parse_date_range` is modelled as a total function into a pair (every
fragment failure is caught internally and becomes `None`), and it returns
`(None, None)` if and only if the input is empty or wholly unparseable;
otherwise at least one of start/end is non-null. -/
theorem C5_none_none_iff_unparseable (nowY : Nat) (text : String) :
    (parse_date_range nowY text = (none, none) ↔
      (text = "" ∨ whollyUnparseable nowY text)) ∧
    (¬ (text = "" ∨ whollyUnparseable nowY text) →
      (parse_date_range nowY text).1 ≠ none ∨ (parse_date_range nowY text).2 ≠ none) := by
  have hiff : parse_date_range nowY text = (none, none) ↔
      (text = "" ∨ whollyUnparseable nowY text) := by
    by_cases hne : text = ""
    · constructor
      · intro _
        exact Or.inl hne
      · intro _
        subst hne
        rfl
    · rcases hsp : splitOnChar '〜' (pdrNormalize text) with _ | ⟨p1, tl1⟩
      · exact absurd hsp (splitOnChar_ne_nil _ _)
      · rcases tl1 with _ | ⟨p2, tl2⟩
        · have hlen : (splitOnChar '〜' (pdrNormalize text)).length ≠ 2 := by
            rw [hsp]
            simp
          have hwu := @whollyUnparseable_other nowY text hlen
          rw [parse_date_range_other hne hlen]
          constructor
          · intro h
            injection h with h1 h2
            exact Or.inr (hwu.mpr h1)
          · rintro (h | h)
            · exact absurd h hne
            · rw [hwu.mp h]
        · rcases tl2 with _ | ⟨p3, tl3⟩
          · have hwu := @whollyUnparseable_two nowY text p1 p2 hsp
            rw [parse_date_range_two hsp]
            cases hs : pyNorm nowY none p1 with
            | none =>
              rw [show yearOf nowY none = nowY from rfl]
              constructor
              · intro h
                injection h with h1 h2
                exact Or.inr (hwu.mpr ⟨hs, h2⟩)
              · rintro (h | h)
                · exact absurd h hne
                · rw [(hwu.mp h).2]
            | some v =>
              constructor
              · intro h
                injection h with h1 h2
                exact Option.noConfusion h1
              · rintro (h | h)
                · exact absurd h hne
                · exact absurd (hwu.mp h).1 (by rw [hs]; simp)
          · have hlen : (splitOnChar '〜' (pdrNormalize text)).length ≠ 2 := by
              rw [hsp]
              simp
            have hwu := @whollyUnparseable_other nowY text hlen
            rw [parse_date_range_other hne hlen]
            constructor
            · intro h
              injection h with h1 h2
              exact Or.inr (hwu.mpr h1)
            · rintro (h | h)
              · exact absurd h hne
              · rw [hwu.mp h]
  refine ⟨hiff, fun hnot => ?_⟩
  by_contra hboth
  push_neg at hboth
  exact hnot (hiff.mp (Prod.ext_iff.mpr ⟨hboth.1, hboth.2⟩))

/-- C5 witness: on the empty input the theorem yields `(None, None)`. -/
theorem C5_witness : parse_date_range 2026 "" = (none, none) :=
  (C5_none_none_iff_unparseable 2026 "").1.mpr (Or.inl rfl)

/-- C6: each of the three extractors materializes a row if and only if the
title is truthy (non-missing and non-empty) and at least one of
start_date/end_date is non-null; so a titled row with wholly unparseable
date text is dropped, and an untitled row is dropped even when its date
parses. -/
theorem C6_acceptance_guard :
    (∀ (nowY : Nat) (title date_text venue : String) (link : Option String),
      (kagaku_row nowY title date_text venue link).isSome =
        (!(title = "") && ((parse_date_range nowY date_text).1.isSome ||
          (parse_date_range nowY date_text).2.isSome))) ∧
    (∀ (title start_date end_date venue url : Option String),
      (bigsight_row title start_date end_date venue url).isSome =
        (pyTruthy title && (start_date.isSome || end_date.isSome))) ∧
    (∀ (nowY : Nat) (date_text : String) (title venue link : Option String),
      (makuhari_row nowY date_text title venue link).isSome =
        (pyTruthy title && ((parse_date_range nowY date_text).1.isSome ||
          (parse_date_range nowY date_text).2.isSome))) := by
  refine ⟨?_, ?_, ?_⟩
  · intro nowY title date_text venue link
    simp only [kagaku_row]
    split <;> simp_all
  · intro title start_date end_date venue url
    simp only [bigsight_row]
    split <;> simp_all
  · intro nowY date_text title venue link
    simp only [makuhari_row]
    split <;> simp_all

/-- C7: deduplication in `collect_all` keys on exactly `(source, title,
start_date, url)` and keeps the first occurrence in encounter order: two
rows equal on the key (venue may differ) collapse to the first, and two rows
differing anywhere in the key both survive. -/
theorem C7_dedup_key_first_occurrence (today : String) (r1 r2 : RawRow) :
    (rowKey r1 = rowKey r2 →
      (collect_all today [FetchOutcome.ok [r1, r2]]).rows =
        [{ row := r1, last_seen_at := today }]) ∧
    (¬ rowKey r1 = rowKey r2 →
      (collect_all today [FetchOutcome.ok [r1, r2]]).rows =
        [{ row := r1, last_seen_at := today }, { row := r2, last_seen_at := today }]) := by
  have hdfs : collectDfs [FetchOutcome.ok [r1, r2]] = [[r1, r2]] := by
    simp [collectDfs]
  constructor
  · intro hk
    unfold collect_all
    rw [hdfs]
    simp [dedupFirst, hk]
  · intro hk
    have hk2 : ¬ rowKey r2 = rowKey r1 := fun h => hk h.symm
    unfold collect_all
    rw [hdfs]
    simp [dedupFirst, hk2]

/-- C7 witness: two concrete rows identical on the key but with different
venues collapse to the first. -/
theorem C7_witness :
    rowKey dupRow1 = rowKey dupRow2 ∧ dupRow1.venue ≠ dupRow2.venue ∧
    (collect_all "2026-10-12" [FetchOutcome.ok [dupRow1, dupRow2]]).rows =
      [{ row := dupRow1, last_seen_at := "2026-10-12" }] :=
  ⟨by decide, by decide,
    (C7_dedup_key_first_occurrence "2026-10-12" dupRow1 dupRow2).1 (by decide)⟩

/-- C8: when the normalized text splits into exactly two fragments and the
left fragment fails to parse, `parse_date_range` returns `(None,
parsedRight)` where the right fragment is parsed with the current system
year — not any year from the failed left side — as its default. -/
theorem C8_left_fail_right_defaults_current_year (nowY : Nat) (text : String)
    (left right : List Char)
    (hsp : splitOnChar '〜' (pdrNormalize text) = [left, right])
    (hleft : pyNorm nowY none left = none) :
    parse_date_range nowY text = (none, pyNorm nowY (some nowY) right) := by
  rw [parse_date_range_two hsp, hleft]
  rfl

/-- C8 witness: `"abc〜2/20"` splits into a failing left fragment and the
right fragment `2/20`, which resolves with the current year 2026. -/
theorem C8_witness :
    splitOnChar '〜' (pdrNormalize "abc〜2/20") = ["abc".data, "2/20".data] ∧
    pyNorm 2026 none "abc".data = none ∧
    parse_date_range 2026 "abc〜2/20" = (none, some "2026-02-20") := by
  refine ⟨by decide, by decide, ?_⟩
  rw [C8_left_fail_right_defaults_current_year 2026 "abc〜2/20" "abc".data "2/20".data
    (by decide) (by decide)]
  decide

/-- C9: `collect_all` tolerates per-source failure: an outcome that raised an
exception, or one that produced zero rows, contributes nothing and leaves
the result exactly as if that source were absent; the run is never
aborted. -/
theorem C9_partial_failure_tolerated (today : String)
    (xs ys : List FetchOutcome) (msg : String) :
    collect_all today (xs ++ FetchOutcome.err msg :: ys) =
      collect_all today (xs ++ ys) ∧
    collect_all today (xs ++ FetchOutcome.ok [] :: ys) =
      collect_all today (xs ++ ys) := by
  have h1 : collectDfs (xs ++ FetchOutcome.err msg :: ys) = collectDfs (xs ++ ys) := by
    rw [collectDfs_append, collectDfs_err_cons, ← collectDfs_append]
  have h2 : collectDfs (xs ++ FetchOutcome.ok [] :: ys) = collectDfs (xs ++ ys) := by
    rw [collectDfs_append, collectDfs_okNil_cons, ← collectDfs_append]
  constructor
  · unfold collect_all
    rw [h1]
  · unfold collect_all
    rw [h2]

/-- C10: when every source fails or returns zero rows, `collect_all` returns
an empty frame whose columns are exactly the six `keep_cols` — without the
`last_seen_at` column that every non-empty result carries — so the output
schema differs between the empty and non-empty cases. -/
theorem C10_empty_and_nonempty_schemas (today : String)
    (outcomes : List FetchOutcome) :
    (collect_all today outcomes).cols =
      (if allFruitless outcomes then keep_cols else keep_cols ++ ["last_seen_at"]) ∧
    ((collect_all today outcomes).rows = [] ↔ allFruitless outcomes = true) ∧
    keep_cols ≠ keep_cols ++ ["last_seen_at"] := by
  by_cases h : allFruitless outcomes = true
  · have hd : collectDfs outcomes = [] := (collectDfs_eq_nil_iff outcomes).mpr h
    have he : (collectDfs outcomes).isEmpty = true := by
      rw [hd]
      rfl
    unfold collect_all
    rw [hd] at he ⊢
    refine ⟨by simp [h], by simp [h], by decide⟩
  · have hd : ¬ collectDfs outcomes = [] :=
      fun hc => h ((collectDfs_eq_nil_iff outcomes).mp hc)
    have he : ¬ (collectDfs outcomes).isEmpty = true := by
      simpa [List.isEmpty_iff] using hd
    have hflat : ¬ (collectDfs outcomes).flatten = [] := by
      intro hf
      rcases List.exists_mem_of_ne_nil _ hd with ⟨x, hx⟩
      exact ne_nil_of_mem_collectDfs hx (List.flatten_eq_nil_iff.mp hf x hx)
    unfold collect_all
    rw [if_neg he]
    refine ⟨by simp [h], ?_, by decide⟩
    simp only [h, iff_false]
    rcases hst : (collectDfs outcomes).flatten with _ | ⟨a, rest⟩
    · exact absurd hst hflat
    · simp [dedupFirst]

end EventsMonthly
